import Mathlib

/-!
Verification development for the meet2jira ticket-mention correlation core
(`src/app/action_extractor.py` and `src/app/jira_client.py`).

The Python functions are shallowly embedded as executable Lean definitions:
strings are processed through their character lists, Python dictionaries are
insertion-ordered association lists, and the black-box OpenAI call of the AI
extraction path is modelled as an explicit outcome value.  The embedding is
restricted to ASCII transcripts: Python's Unicode-aware `\w`, `\s`, `str.lower`
and `str.strip` coincide with the ASCII versions below on every input
appearing in the source, the spec and the scenarios.
-/

namespace Meet2Jira

/-! ## Character classes (ASCII fragments of Python's `\s`, `\w`, `[A-Z]`, `\d`) -/

/-- Python whitespace (`str.strip`, regex `\s`), ASCII fragment. -/
def isPySpace (c : Char) : Bool :=
  c = ' ' || c = '\t' || c = '\n' || c = '\r' || c = '\x0b' || c = '\x0c'

/-- The character class `[A-Z]`. -/
def isUpperAZ (c : Char) : Bool := 'A' ≤ c && c ≤ 'Z'

/-- The character class `[0-9]` (regex `\d`, ASCII). -/
def isDigit09 (c : Char) : Bool := '0' ≤ c && c ≤ '9'

/-- The character class `[A-Z0-9]` used in the ticket grammar. -/
def isUpperOrDigit (c : Char) : Bool := isUpperAZ c || isDigit09 c

/-- Regex word character `\w` (ASCII fragment `[A-Za-z0-9_]`), used for the
`\b` boundaries of `TICKET_ID_RE`. -/
def isWordChar (c : Char) : Bool :=
  ('A' ≤ c && c ≤ 'Z') || ('a' ≤ c && c ≤ 'z') || ('0' ≤ c && c ≤ '9') || c = '_'

/-! ## Python `str.strip` and `str.splitlines` -/

/-- `str.strip()` on a character list: drop whitespace from the left, then
(via reversal) from the right. -/
def pyStripList (l : List Char) : List Char :=
  ((l.dropWhile isPySpace).reverse.dropWhile isPySpace).reverse

/-- `str.strip()`. -/
def pyStrip (s : String) : String := String.mk (pyStripList s.data)

/-- Helper for `splitlines`: `cur` holds the current line's characters in
reverse.  A trailing newline does not open a final empty line, matching
Python's `str.splitlines()`. -/
def splitlinesAux : List Char → List Char → List String
  | [], cur => if cur = [] then [] else [String.mk cur.reverse]
  | '\n' :: rest, cur => String.mk cur.reverse :: splitlinesAux rest []
  | c :: rest, cur => splitlinesAux rest (c :: cur)

/-- `str.splitlines()` for `\n`-delimited text (the only line separator
occurring in the transcripts handled by the source). -/
def splitlines (s : String) : List String := splitlinesAux s.data []

/-! ## `TICKET_ID_RE = re.compile(r"\b([A-Z][A-Z0-9]+-\d+)\b")` -/

/-- Attempt to match `[A-Z][A-Z0-9]+-\d+\b` at the head of `cs` (the leading
`\b` is checked by the caller).  Since `-` belongs to neither `[A-Z0-9]` nor
`\d`, the regex engine's greedy match is deterministic: maximal `[A-Z0-9]+`,
the literal `-`, maximal `\d+`, then the trailing word boundary.  Returns the
matched characters and the remaining input. -/
def tryTicketAt : List Char → Option (List Char × List Char)
  | [] => none
  | c :: rest =>
    if isUpperAZ c then
      let body := rest.takeWhile isUpperOrDigit
      let rest2 := rest.drop body.length
      if body.isEmpty then none
      else
        match rest2 with
        | '-' :: rest3 =>
          let digs := rest3.takeWhile isDigit09
          let rest4 := rest3.drop digs.length
          if digs.isEmpty then none
          else
            match rest4 with
            | [] => some (c :: (body ++ '-' :: digs), [])
            | d :: _ => if isWordChar d then none else some (c :: (body ++ '-' :: digs), rest4)
        | _ => none
    else none

/-- Scanner for `TICKET_ID_RE.findall`: walk the characters left to right,
carrying the previous character for the leading `\b` check (`none` at the
start of the string); after a match, scanning resumes at the match's end with
the match's last character as the new previous character.  `fuel` bounds the
recursion and is instantiated with the string length, which every call chain
consumes at least one character per step, so it never runs out. -/
def findTicketsGo : Nat → Option Char → List Char → List String
  | 0, _, _ => []
  | _ + 1, _, [] => []
  | fuel + 1, prev, c :: rest =>
    let boundary := match prev with | none => true | some p => !isWordChar p
    if boundary then
      match tryTicketAt (c :: rest) with
      | some (m, rest2) => String.mk m :: findTicketsGo fuel (some (m.getLastD '0')) rest2
      | none => findTicketsGo fuel (some c) rest
    else findTicketsGo fuel (some c) rest

/-- `TICKET_ID_RE.findall(line)`: the ordered list of matches of
`\b([A-Z][A-Z0-9]+-\d+)\b`. -/
def findTickets (s : String) : List String := findTicketsGo s.data.length none s.data

/-- Truthiness of `TICKET_ID_RE.search(line)`. -/
def hasTicket (s : String) : Bool := !(findTickets s).isEmpty

/-! ## `CONTINUATION_RE = re.compile(r"^\s*(?:[-*]|\d+[\.\)])\s+")` and
`_is_continuation_line` -/

/-- Does the list start with a `\s` character (for the final `\s+`)? -/
def headIsSpace : List Char → Bool
  | c :: _ => isPySpace c
  | [] => false

/-- Prefix match of `CONTINUATION_RE` against a line's characters.  The
alternation is deterministic because `\s`, `[-*]` and `\d` are pairwise
disjoint. -/
def continuationMatch (cs : List Char) : Bool :=
  match cs.dropWhile isPySpace with
  | [] => false
  | c :: rest2 =>
    if c = '-' || c = '*' then headIsSpace rest2
    else if isDigit09 c then
      match rest2.dropWhile isDigit09 with
      | d :: rest4 => (d = '.' || d = ')') && headIsSpace rest4
      | [] => false
    else false

/-- ASCII `str.lower` on one character. -/
def charLower (c : Char) : Char :=
  if 'A' ≤ c && c ≤ 'Z' then Char.ofNat (c.toNat + 32) else c

/-- `a.startswith(b)` on character lists. -/
def startsWithL : List Char → List Char → Bool
  | [], _ => true
  | _ :: _, [] => false
  | p :: ps, c :: cs => p = c && startsWithL ps cs

/-- `_is_continuation_line(line)` from `src/app/action_extractor.py`. -/
def isContinuationLine (line : String) : Bool :=
  if line = "" then false
  else if continuationMatch line.data then true
  else
    let lower := line.data.map charLower
    startsWithL "action:".data lower || startsWithL "action item".data lower ||
    startsWithL "actions:".data lower || startsWithL "discussion:".data lower ||
    startsWithL "notes:".data lower || startsWithL "decision:".data lower

/-! ## `_normalize_note` -/

/-- `"\n".join(lines)`. -/
def joinLines : List String → String
  | [] => ""
  | [x] => x
  | x :: xs => x ++ "\n" ++ joinLines xs

/-- `_normalize_note(lines)`: strip each line, drop empties, join with
newlines. -/
def normalizeNote (lines : List String) : String :=
  joinLines ((lines.map pyStrip).filter (fun l => !(l == "")))

/-! ## The notes dictionary (`notes_by_ticket`) as an insertion-ordered
association list -/

/-- Dictionary lookup. -/
def lookupNotes : List (String × List String) → String → Option (List String)
  | [], _ => none
  | (k, v) :: rest, t => if k = t then some v else lookupNotes rest t

/-- In-place value update of the (unique) binding of `t`. -/
def updateEntry : List (String × List String) → String → List String → List (String × List String)
  | [], _, _ => []
  | (k, v) :: rest, t, ns => if k = t then (k, ns) :: rest else (k, v) :: updateEntry rest t ns

/-- Lines 130–132 of `action_extractor.py`:
`notes_by_ticket.setdefault(ticket, [])` followed by
`if note and note not in notes_by_ticket[ticket]: append(note)`. -/
def addNote (m : List (String × List String)) (ticket note : String) :
    List (String × List String) :=
  match lookupNotes m ticket with
  | none => if note = "" then m ++ [(ticket, [])] else m ++ [(ticket, [note])]
  | some ns => if note ≠ "" ∧ note ∉ ns then updateEntry m ticket (ns ++ [note]) else m

/-! ## `extract_jira_ticket_notes_regex` -/

/-- The inner `while` loop (lines 115–126): collect the stripped forms of the
following lines while each is non-blank, ticket-free, and a continuation
line. -/
def collectWindow : List String → List String
  | [] => []
  | l :: rest =>
    let next := pyStrip l
    if next = "" then []
    else if hasTicket next then []
    else if isContinuationLine next then next :: collectWindow rest
    else []

/-- The outer `for idx` loop (lines 105–132).  The loop advances one line per
iteration (the window only reads ahead; consumed continuation lines are
revisited by the outer loop, where they contain no ticket and are skipped). -/
def extractLoop (acc : List (String × List String)) :
    List String → List (String × List String)
  | [] => acc
  | raw :: rest =>
    let line := pyStrip raw
    if line = "" then extractLoop acc rest
    else
      let tickets := findTickets line
      if tickets.isEmpty then extractLoop acc rest
      else
        let note := normalizeNote (line :: collectWindow rest)
        extractLoop (tickets.foldl (fun m t => addNote m t note) acc) rest

/-- `extract_jira_ticket_notes_regex(transcript_text)`. -/
def extract_jira_ticket_notes_regex (transcript_text : String) :
    List (String × List String) :=
  extractLoop [] (splitlines transcript_text)

/-! ## JSON values and the Output Validator (`extract_jira_ticket_notes_ai`,
lines 180–184) -/

/-- Values produced by `json.loads` on the model's response, restricted to
the scalar kinds (string, integer, boolean, null) and arrays; nested objects
and floats do not occur in the scenarios and are omitted. -/
inductive JVal where
  | str : String → JVal
  | int : Int → JVal
  | bool : Bool → JVal
  | null : JVal
  | list : List JVal → JVal
deriving Repr

/-- `", ".join`. -/
def joinCommas : List String → String
  | [] => ""
  | [x] => x
  | x :: xs => x ++ ", " ++ joinCommas xs

mutual
/-- Python `repr` of a JSON-shaped value (string quoting approximated for
strings without quotes or escapes — the only ones that occur here). -/
def pyRepr : JVal → String
  | .str s => "'" ++ s ++ "'"
  | .int n => toString n
  | .bool b => if b then "True" else "False"
  | .null => "None"
  | .list xs => "[" ++ joinCommas (pyReprList xs) ++ "]"
def pyReprList : List JVal → List String
  | [] => []
  | v :: vs => pyRepr v :: pyReprList vs
end

/-- Python `str(value)`. -/
def pyStr : JVal → String
  | .str s => s
  | .list xs => "[" ++ joinCommas (pyReprList xs) ++ "]"
  | v => pyRepr v

/-- `TICKET_ID_RE.fullmatch(key)` truthiness.  Because `-` belongs to neither
`[A-Z0-9]` nor `\d`, and the pattern's word boundaries are trivially
satisfied at the ends of a full match, a full match is a deterministic parse
of `[A-Z][A-Z0-9]+-\d+` over the whole string: the remainder after
`[A-Z][A-Z0-9]+` must start with the literal `-` and continue with `\d+` to
the end. -/
def afterTicketBody : List Char → Bool
  | [] => false
  | c :: rest =>
    if c = '-' then !rest.isEmpty && rest.all isDigit09
    else isUpperOrDigit c && afterTicketBody rest

/-- `TICKET_ID_RE.fullmatch(s)` is truthy. -/
def ticketFullmatch (s : String) : Bool :=
  match s.data with
  | [] => false
  | c :: rest =>
    isUpperAZ c &&
      (match rest with
       | [] => false
       | d :: rest2 => isUpperOrDigit d && afterTicketBody rest2)

/-- The value coercion of line 181: `value if isinstance(value, list) else
[str(value)]`. -/
def coerceValue : JVal → List JVal
  | JVal.list xs => xs
  | v => [JVal.str (pyStr v)]

/-- One item of the dict comprehension of lines 180–184: an entry is kept
when its key is a string fully matching `TICKET_ID_RE`; a list value is kept
as it is, any other value is wrapped as the one-element list `[str(value)]`. -/
def validateEntry : JVal × JVal → Option (String × List JVal)
  | (JVal.str key, value) =>
    if ticketFullmatch key then some (key, coerceValue value) else none
  | _ => none

/-- The dict comprehension of lines 180–184 over `data.items()`.  The input
association list stands for the items of the parsed JSON object, so its keys
are distinct. -/
def validate (data : List (JVal × JVal)) : List (String × List JVal) :=
  data.filterMap validateEntry

/-- Outcome of the `try` block's interaction with the black-box model call in
`extract_jira_ticket_notes_ai` (lines 169–187).  `raises` is an exception
from `client.chat.completions.create`, `invalidJson` a response text rejected
by `json.loads` (which raises), `nonDict` a JSON payload that is not an
object (so `data.items()` raises), and `parsed` a successfully parsed JSON
object, given by its items.  All three exception outcomes are caught by the
single `except Exception` handler. -/
inductive ModelCallOutcome where
  | raises : ModelCallOutcome
  | invalidJson : ModelCallOutcome
  | nonDict : ModelCallOutcome
  | parsed : List (JVal × JVal) → ModelCallOutcome

/-- `extract_jira_ticket_notes_ai(transcript_text)`, abstracted over the
module-level `client` being initialized (`clientOk`) and the black-box call's
outcome.  The transcript itself only flows into the prompt, so it does not
appear as a parameter. -/
def extract_jira_ticket_notes_ai (clientOk : Bool) (call : ModelCallOutcome) :
    List (String × List JVal) :=
  if !clientOk then []
  else
    match call with
    | .raises => []
    | .invalidJson => []
    | .nonDict => []
    | .parsed data => validate data

/-! ## `post_ticket_notes` (`src/app/jira_client.py`, lines 68–88) -/

/-- The comment body built inside the loop of `post_ticket_notes`
(lines 76–85). -/
def buildCommentText (notes : List String) (meeting_title : Option String) : String :=
  let titleLines :=
    match meeting_title with
    | some title => if title = "" then [] else ["Meeting notes from: " ++ title]
    | none => []
  let noteLines :=
    match notes with
    | [n] => [n]
    | _ => "Notes:" :: notes.map (fun note => "- " ++ note)
  joinLines (titleLines ++ noteLines)

/-- `post_ticket_notes(ticket_notes, meeting_title)`.  The input association
list stands for the `ticket_notes` dict (distinct keys, insertion order).
Returns the `results` dict together with the sequence of `add_comment`
calls made (ticket, comment text), in order; the transport inside
`add_comment` is external and modelled as always succeeding. -/
def post_ticket_notes : List (String × List String) → Option String →
    List (String × String) × List (String × String)
  | [], _ => ([], [])
  | (ticket, notes) :: rest, meeting_title =>
    if notes.isEmpty then post_ticket_notes rest meeting_title
    else
      let comment_text := buildCommentText notes meeting_title
      let r := post_ticket_notes rest meeting_title
      ((ticket, "posted") :: r.1, (ticket, comment_text) :: r.2)

/-! ## The ticket grammar, stated from the spec's words -/

/-- Modelled from the spec: a string that "fully matches the ticket grammar
`[A-Z][A-Z0-9]+-[0-9]+`" — one `[A-Z]` character, then a nonempty run of
`[A-Z0-9]`, then `-`, then a nonempty run of digits, with nothing else.
Stated independently of `ticketFullmatch` so that the validator's key filter
can be checked against the spec's grammar. -/
def ticketGrammarSpec (s : String) : Prop :=
  ∃ (a : Char) (body tail : List Char),
    s.data = a :: (body ++ '-' :: tail) ∧
    isUpperAZ a = true ∧
    body ≠ [] ∧ (∀ c ∈ body, isUpperOrDigit c = true) ∧
    tail ≠ [] ∧ (∀ c ∈ tail, isDigit09 c = true)

/-! ## The validator's key filter meets the spec's grammar -/

lemma afterTicketBody_spec (cs : List Char) (h : afterTicketBody cs = true) :
    ∃ body tail, cs = body ++ '-' :: tail ∧
      (∀ c ∈ body, isUpperOrDigit c = true) ∧
      tail ≠ [] ∧ (∀ c ∈ tail, isDigit09 c = true) := by
  induction cs with
  | nil => simp [afterTicketBody] at h
  | cons c rest ih =>
    by_cases hc : c = '-'
    · subst hc
      rw [show afterTicketBody ('-' :: rest) = (!rest.isEmpty && rest.all isDigit09)
          from rfl, Bool.and_eq_true] at h
      refine ⟨[], rest, by simp, by simp, ?_, ?_⟩
      · intro hnil
        rw [hnil] at h
        simp at h
      · intro d hd
        exact List.all_eq_true.mp h.2 d hd
    · rw [show afterTicketBody (c :: rest) =
          (if c = '-' then !rest.isEmpty && rest.all isDigit09
           else isUpperOrDigit c && afterTicketBody rest) from rfl, if_neg hc,
        Bool.and_eq_true] at h
      obtain ⟨body, tail, heq, hbody, htail, hdig⟩ := ih h.2
      refine ⟨c :: body, tail, by simp [heq], ?_, htail, hdig⟩
      intro d hd
      rcases List.mem_cons.mp hd with rfl | hd
      · exact h.1
      · exact hbody d hd

lemma ticketFullmatch_grammar (s : String) (h : ticketFullmatch s = true) :
    ticketGrammarSpec s := by
  unfold ticketFullmatch at h
  rcases hs : s.data with _ | ⟨c, rest⟩ <;> rw [hs] at h
  · simp at h
  · rcases rest with _ | ⟨d, rest2⟩
    · simp at h
    · simp only [Bool.and_eq_true] at h
      obtain ⟨body, tail, heq, hbody, htail, hdig⟩ := afterTicketBody_spec rest2 h.2.2
      refine ⟨c, d :: body, tail, ?_, h.1, by simp, ?_, htail, hdig⟩
      · simp [hs, heq]
      · intro e he
        rcases List.mem_cons.mp he with rfl | he
        · exact h.2.1
        · exact hbody e he

/-- Elimination principle for membership in the validator's output: a
surviving entry comes from an entry of the raw mapping whose key is the same
string, passing `TICKET_ID_RE.fullmatch`, with the value coerced exactly as
lines 180–184 do. -/
lemma validate_mem_elim {data : List (JVal × JVal)} {k : String} {vs : List JVal}
    (hmem : (k, vs) ∈ validate data) :
    ∃ v, (JVal.str k, v) ∈ data ∧ ticketFullmatch k = true ∧ vs = coerceValue v := by
  simp only [validate] at hmem
  rw [List.mem_filterMap] at hmem
  obtain ⟨⟨kv1, kv2⟩, hin, hf⟩ := hmem
  cases kv1 with
  | str key =>
    rw [show validateEntry (JVal.str key, kv2) =
        (if ticketFullmatch key then some (key, coerceValue kv2) else none)
        from rfl] at hf
    by_cases hm : ticketFullmatch key = true
    · rw [if_pos hm, Option.some.injEq, Prod.mk.injEq] at hf
      obtain ⟨hkey, hval⟩ := hf
      subst hkey
      exact ⟨kv2, hin, hm, hval.symm⟩
    · rw [if_neg hm] at hf
      exact Option.noConfusion hf
  | int n => exact Option.noConfusion hf
  | bool b => exact Option.noConfusion hf
  | null => exact Option.noConfusion hf
  | list xs => exact Option.noConfusion hf

/-- C1: every key surviving the Validator/Sanitizer's filter fully matches
the ticket grammar `[A-Z][A-Z0-9]+-[0-9]+` (stated against the grammar
spelled out from the spec), and the raw mapping of Scenario 4 is filtered
down to the empty map. -/
theorem claim_C1 :
    (∀ (data : List (JVal × JVal)) (k : String),
      k ∈ (validate data).map Prod.fst → ticketGrammarSpec k) ∧
    validate [(JVal.str "$500", JVal.list [JVal.str "..."]),
              (JVal.str "500 users", JVal.list [JVal.str "..."])] = [] := by
  constructor
  · intro data k hk
    rw [List.mem_map] at hk
    obtain ⟨⟨k', vs⟩, hmem, rfl⟩ := hk
    obtain ⟨v, _, hm, _⟩ := validate_mem_elim hmem
    exact ticketFullmatch_grammar _ hm
  · rfl

theorem claim_C1_witness : ticketGrammarSpec "IWMP-1" :=
  claim_C1.1 [(JVal.str "IWMP-1", JVal.null)] "IWMP-1" (by decide)

/-- C2 fails on the code: the validator's `TICKET_ID_RE.fullmatch` is
case-sensitive and no uppercasing is applied, so the lowercase key
`"proj-123"` is dropped instead of being retained as `"PROJ-123"`. -/
theorem claim_C2_cex :
    validate [(JVal.str "proj-123", JVal.list [JVal.str "x"])] = [] ∧
    "PROJ-123" ∉ (validate [(JVal.str "proj-123", JVal.list [JVal.str "x"])]).map Prod.fst := by
  exact ⟨rfl, by decide⟩

/-- C2 amended: the validator is case-sensitive — every surviving key
already fully matches `TICKET_ID_RE` in its original casing and is kept
verbatim (it occurs as a key of the raw mapping); an exact-case key such as
`"PROJ-123"` is retained unchanged. -/
theorem claim_C2 :
    (∀ (data : List (JVal × JVal)) (k : String),
      k ∈ (validate data).map Prod.fst →
        ticketFullmatch k = true ∧ JVal.str k ∈ data.map Prod.fst) ∧
    validate [(JVal.str "PROJ-123", JVal.list [JVal.str "x"])] =
      [("PROJ-123", [JVal.str "x"])] := by
  constructor
  · intro data k hk
    rw [List.mem_map] at hk
    obtain ⟨⟨k', vs⟩, hmem, rfl⟩ := hk
    obtain ⟨v, hin, hm, _⟩ := validate_mem_elim hmem
    exact ⟨hm, List.mem_map.mpr ⟨(JVal.str k', v), hin, rfl⟩⟩
  · rfl

theorem claim_C2_witness :
    ticketFullmatch "PROJ-123" = true ∧
    JVal.str "PROJ-123" ∈
      ([(JVal.str "PROJ-123", JVal.list [JVal.str "x"])].map Prod.fst) :=
  claim_C2.1 [(JVal.str "PROJ-123", JVal.list [JVal.str "x"])] "PROJ-123" (by decide)

/-- C3 fails on the code: a list value is passed through unchanged, its
elements are not converted to strings — `[5]` survives as `[5]`, not
`["5"]`. -/
theorem claim_C3_cex :
    validate [(JVal.str "IWMP-991", JVal.list [JVal.int 5])] =
      [("IWMP-991", [JVal.int 5])] ∧
    JVal.int 5 ≠ JVal.str "5" :=
  ⟨rfl, fun h => JVal.noConfusion h⟩

/-- C3 amended: the validator wraps a scalar (non-list) value as the
one-element list containing its string form, and keeps a list value exactly
as the model produced it (elements are not converted); Scenario 3's scalar
coercion holds as stated. -/
theorem claim_C3 :
    (∀ (data : List (JVal × JVal)) (k : String) (vs : List JVal),
      (k, vs) ∈ validate data →
        (JVal.str k, JVal.list vs) ∈ data ∨
        ∃ v, (JVal.str k, v) ∈ data ∧ (∀ xs, v ≠ JVal.list xs) ∧
          vs = [JVal.str (pyStr v)]) ∧
    validate [(JVal.str "IWMP-991", JVal.str "single string note")] =
      [("IWMP-991", [JVal.str "single string note"])] := by
  constructor
  · intro data k vs hmem
    obtain ⟨v, hin, _, hval⟩ := validate_mem_elim hmem
    cases v with
    | list xs =>
      left
      rw [show coerceValue (JVal.list xs) = xs from rfl] at hval
      rw [hval]
      exact hin
    | str s =>
      exact Or.inr ⟨JVal.str s, hin, fun xs h => JVal.noConfusion h, hval⟩
    | int n =>
      exact Or.inr ⟨JVal.int n, hin, fun xs h => JVal.noConfusion h, hval⟩
    | bool b =>
      exact Or.inr ⟨JVal.bool b, hin, fun xs h => JVal.noConfusion h, hval⟩
    | null =>
      exact Or.inr ⟨JVal.null, hin, fun xs h => JVal.noConfusion h, hval⟩
  · rfl

theorem claim_C3_witness :
    (JVal.str "IWMP-991", JVal.list [JVal.str "a"]) ∈
        ([(JVal.str "IWMP-991", JVal.list [JVal.str "a"])] : List (JVal × JVal)) ∨
      ∃ v, (JVal.str "IWMP-991", v) ∈
          ([(JVal.str "IWMP-991", JVal.list [JVal.str "a"])] : List (JVal × JVal)) ∧
        (∀ xs, v ≠ JVal.list xs) ∧ [JVal.str "a"] = [JVal.str (pyStr v)] :=
  claim_C3.1 [(JVal.str "IWMP-991", JVal.list [JVal.str "a"])] "IWMP-991" [JVal.str "a"]
    (List.mem_singleton.mpr rfl)

/-- C9: whatever the black-box extraction call does — the client capability
absent, the call raising, the response failing to parse as JSON, or the
parsed payload not being an object — `extract_jira_ticket_notes_ai` returns
the empty map; on a successfully parsed object it returns exactly the
validated map.  The function is total over all modelled outcomes, so no
failure propagates. -/
theorem claim_C9 :
    ∀ (call : ModelCallOutcome) (data : List (JVal × JVal)),
      extract_jira_ticket_notes_ai false call = [] ∧
      extract_jira_ticket_notes_ai true .raises = [] ∧
      extract_jira_ticket_notes_ai true .invalidJson = [] ∧
      extract_jira_ticket_notes_ai true .nonDict = [] ∧
      extract_jira_ticket_notes_ai true (.parsed data) = validate data := by
  intro call data
  refine ⟨?_, rfl, rfl, rfl, rfl⟩
  cases call <;> rfl

/-! ## C5: the note window is the maximal run of continuation lines -/

/-- C5: the window collected after a ticket-bearing line is exactly the
maximal prefix (`takeWhile`) of the subsequent (stripped) lines that are
non-blank, contain no ticket ID, and pass the Continuation Classifier; on
Scenario 1's transcript the extractor produces exactly the single note
joining the ticket line with its two bullet continuations. -/
theorem claim_C5 :
    (∀ lines : List String,
      collectWindow lines =
        (lines.map pyStrip).takeWhile
          (fun l => !(l == "") && !hasTicket l && isContinuationLine l)) ∧
    extract_jira_ticket_notes_regex
        "PROJ-123 needs review\n- check the DB migration\n- notify QA\n\nunrelated text" =
      [("PROJ-123", ["PROJ-123 needs review\n- check the DB migration\n- notify QA"])] := by
  constructor
  · intro lines
    induction lines with
    | nil => rfl
    | cons l rest ih =>
      rw [List.map_cons, List.takeWhile_cons]
      by_cases h1 : pyStrip l = ""
      · simp [collectWindow, h1]
      · by_cases h2 : hasTicket (pyStrip l) = true
        · simp [collectWindow, h1, h2]
        · by_cases h3 : isContinuationLine (pyStrip l) = true
          · simp [collectWindow, h1, h2, h3, ih]
          · simp [collectWindow, h1, h2, h3]
  · rfl

/-! ## C8: comment body construction in `post_ticket_notes` -/

lemma joinLines_cons (x : String) (xs : List String) (h : xs ≠ []) :
    joinLines (x :: xs) = x ++ "\n" ++ joinLines xs := by
  cases xs with
  | nil => exact absurd rfl h
  | cons y ys => rfl

/-- C8: the comment body starts with the `Meeting notes from:` line whenever
a (non-empty) meeting title is supplied; a single note is appended verbatim;
several notes appear as a `Notes:` header followed by one `- ` bullet per
note in order; Scenario 5's payload comes out exactly as specified. -/
theorem claim_C8 :
    (∀ (title : String) (notes : List String), title ≠ "" →
      buildCommentText notes (some title) =
        "Meeting notes from: " ++ title ++ "\n" ++ buildCommentText notes none) ∧
    (∀ n : String, buildCommentText [n] none = n) ∧
    (∀ (a b : String) (rest : List String),
      buildCommentText (a :: b :: rest) none =
        joinLines ("Notes:" :: (a :: b :: rest).map (fun note => "- " ++ note))) ∧
    post_ticket_notes [("IWMP-50", ["Note A", "Note B"])] (some "Standup 5/1") =
      ([("IWMP-50", "posted")],
       [("IWMP-50", "Meeting notes from: Standup 5/1\nNotes:\n- Note A\n- Note B")]) := by
  refine ⟨?_, fun n => rfl, fun a b rest => rfl, rfl⟩
  intro title notes htitle
  have hne : (match notes with
      | [n] => [n]
      | _ => "Notes:" :: notes.map (fun note => "- " ++ note)) ≠ ([] : List String) := by
    rcases notes with _ | ⟨n, _ | ⟨b, r⟩⟩ <;> simp
  rcases notes with _ | ⟨n, _ | ⟨b, r⟩⟩ <;>
    simp only [buildCommentText, if_neg htitle, List.singleton_append] <;>
    rw [joinLines_cons _ _ (by simp)] <;>
    simp [String.append_assoc]

/-! ## C10: tickets with no notes are skipped by `post_ticket_notes` -/

lemma post_ticket_notes_keys_sub (tn : List (String × List String))
    (title : Option String) :
    (∀ k, k ∈ (post_ticket_notes tn title).1.map Prod.fst → k ∈ tn.map Prod.fst) ∧
    (∀ k, k ∈ (post_ticket_notes tn title).2.map Prod.fst → k ∈ tn.map Prod.fst) := by
  induction tn with
  | nil => exact ⟨fun k h => h, fun k h => h⟩
  | cons e rest ih =>
    obtain ⟨ticket, notes⟩ := e
    by_cases hn : notes.isEmpty = true
    · rw [show post_ticket_notes ((ticket, notes) :: rest) title =
          post_ticket_notes rest title from by simp [post_ticket_notes, hn]]
      exact ⟨fun k h => List.mem_cons_of_mem _ (ih.1 k h),
             fun k h => List.mem_cons_of_mem _ (ih.2 k h)⟩
    · rw [show post_ticket_notes ((ticket, notes) :: rest) title =
          ((ticket, "posted") :: (post_ticket_notes rest title).1,
           (ticket, buildCommentText notes title) :: (post_ticket_notes rest title).2)
          from by simp [post_ticket_notes, hn]]
      constructor
      · intro k h
        rcases List.mem_cons.mp h with h | h
        · exact List.mem_cons.mpr (Or.inl h)
        · exact List.mem_cons_of_mem _ (ih.1 k h)
      · intro k h
        rcases List.mem_cons.mp h with h | h
        · exact List.mem_cons.mpr (Or.inl h)
        · exact List.mem_cons_of_mem _ (ih.2 k h)

/-- C10: under the dict discipline of the input (distinct keys), a ticket
mapped to an empty note list is neither posted to (`add_comment` is not
called for it) nor present in the returned results; every entry of the
returned results carries the status `"posted"` and corresponds to an
`add_comment` call actually made for that ticket. -/
theorem claim_C10 :
    ∀ (tn : List (String × List String)) (title : Option String) (t : String),
      (tn.map Prod.fst).Nodup →
      ((t, ([] : List String)) ∈ tn →
        t ∉ (post_ticket_notes tn title).1.map Prod.fst ∧
        t ∉ (post_ticket_notes tn title).2.map Prod.fst) ∧
      (∀ s, (t, s) ∈ (post_ticket_notes tn title).1 →
        s = "posted" ∧ ∃ c, (t, c) ∈ (post_ticket_notes tn title).2) := by
  intro tn title t hnodup
  induction tn with
  | nil => exact ⟨fun h => absurd h (List.not_mem_nil _), fun s h => absurd h (List.not_mem_nil _)⟩
  | cons e rest ih =>
    obtain ⟨ticket, notes⟩ := e
    rw [List.map_cons, List.nodup_cons] at hnodup
    obtain ⟨hkey, hrest⟩ := hnodup
    obtain ⟨ihA, ihB⟩ := ih hrest
    by_cases hn : notes.isEmpty = true
    · rw [show post_ticket_notes ((ticket, notes) :: rest) title =
          post_ticket_notes rest title from by simp [post_ticket_notes, hn]]
      refine ⟨?_, ihB⟩
      intro hmem
      rcases List.mem_cons.mp hmem with h | h
      · obtain ⟨h1, h2⟩ := (Prod.mk.injEq _ _ _ _).mp h
        subst h1
        exact ⟨fun hc => hkey ((post_ticket_notes_keys_sub rest title).1 _ hc),
               fun hc => hkey ((post_ticket_notes_keys_sub rest title).2 _ hc)⟩
      · exact ihA h
    · have e1 : (post_ticket_notes ((ticket, notes) :: rest) title).1 =
          (ticket, "posted") :: (post_ticket_notes rest title).1 := by
        simp [post_ticket_notes, hn]
      have e2 : (post_ticket_notes ((ticket, notes) :: rest) title).2 =
          (ticket, buildCommentText notes title) :: (post_ticket_notes rest title).2 := by
        simp [post_ticket_notes, hn]
      rw [e1, e2]
      constructor
      · intro hmem
        rcases List.mem_cons.mp hmem with h | h
        · obtain ⟨h1, h2⟩ := (Prod.mk.injEq _ _ _ _).mp h
          subst h2
          exact absurd rfl hn
        · have ht : t ∈ rest.map Prod.fst := List.mem_map.mpr ⟨(t, []), h, rfl⟩
          have hne : t ≠ ticket := fun he => hkey (he ▸ ht)
          obtain ⟨hA1, hA2⟩ := ihA h
          constructor
          · intro hc
            rw [List.map_cons] at hc
            rcases List.mem_cons.mp hc with h' | h'
            · exact hne h'
            · exact hA1 h'
          · intro hc
            rw [List.map_cons] at hc
            rcases List.mem_cons.mp hc with h' | h'
            · exact hne h'
            · exact hA2 h'
      · intro s hmem
        rcases List.mem_cons.mp hmem with h | h
        · obtain ⟨h1, h2⟩ := (Prod.mk.injEq _ _ _ _).mp h
          subst h1
          subst h2
          exact ⟨rfl, buildCommentText notes title,
                 List.mem_cons.mpr (Or.inl rfl)⟩
        · obtain ⟨hs, c, hc⟩ := ihB s h
          exact ⟨hs, c, List.mem_cons_of_mem _ hc⟩

theorem claim_C8_witness :
    buildCommentText ["x"] (some "T") =
      "Meeting notes from: " ++ "T" ++ "\n" ++ buildCommentText ["x"] none :=
  claim_C8.1 "T" ["x"] (by decide)

theorem claim_C10_witness :
    "A-1" ∉ (post_ticket_notes [("A-1", []), ("B-2", ["n"])] none).1.map Prod.fst ∧
    "A-1" ∉ (post_ticket_notes [("A-1", []), ("B-2", ["n"])] none).2.map Prod.fst :=
  (claim_C10 [("A-1", []), ("B-2", ["n"])] none "A-1" (by decide)).1 (by decide)

/-! ## `str.strip` is idempotent (needed for the extractor invariants) -/

lemma dropWhile_head_false (p : Char → Bool) (l : List Char) :
    ∀ c cs, l.dropWhile p = c :: cs → p c = false := by
  induction l with
  | nil => intro c cs h; cases h
  | cons a rest ih =>
    intro c cs h
    rw [List.dropWhile_cons] at h
    by_cases hp : p a = true
    · rw [if_pos hp] at h
      exact ih c cs h
    · rw [if_neg hp] at h
      injection h with h1 _
      subst h1
      exact Bool.not_eq_true _ ▸ hp

lemma dropWhile_eq_self_of_head (p : Char → Bool) (l : List Char)
    (h : ∀ c cs, l = c :: cs → p c = false) : l.dropWhile p = l := by
  cases l with
  | nil => rfl
  | cons a rest =>
    rw [List.dropWhile_cons, if_neg]
    rw [h a rest rfl]
    simp

lemma dropWhile_idem (p : Char → Bool) (l : List Char) :
    (l.dropWhile p).dropWhile p = l.dropWhile p :=
  dropWhile_eq_self_of_head p _ (fun c cs h => dropWhile_head_false p l c cs h)

lemma dropWhile_is_suffix (p : Char → Bool) (l : List Char) :
    ∃ t, t ++ l.dropWhile p = l := by
  induction l with
  | nil => exact ⟨[], rfl⟩
  | cons a rest ih =>
    rw [List.dropWhile_cons]
    by_cases hp : p a = true
    · rw [if_pos hp]
      obtain ⟨t, ht⟩ := ih
      exact ⟨a :: t, by rw [List.cons_append, ht]⟩
    · rw [if_neg hp]
      exact ⟨[], rfl⟩

lemma getLast?_of_suffix {s t l : List Char} (he : t ++ s = l) (hs : s ≠ []) :
    l.getLast? = s.getLast? := by
  rw [← he, List.getLast?_append]
  cases hlast : s.getLast? with
  | none =>
    rw [List.getLast?_eq_none_iff] at hlast
    exact absurd hlast hs
  | some x => rfl

lemma pyStripList_idem (l : List Char) : pyStripList (pyStripList l) = pyStripList l := by
  unfold pyStripList
  cases hb : (l.dropWhile isPySpace).reverse.dropWhile isPySpace with
  | nil => simp
  | cons b bs =>
    -- the stripped result is r = (b :: bs).reverse, whose head fails
    -- isPySpace (it is the last element kept from the left strip) and whose
    -- last element fails isPySpace (head of the right strip)
    have hheadb : isPySpace b = false :=
      dropWhile_head_false isPySpace (l.dropWhile isPySpace).reverse b bs hb
    have hlastb : ((b :: bs).getLast?).elim True (fun c => isPySpace c = false) := by
      obtain ⟨tp, htp⟩ := dropWhile_is_suffix isPySpace (l.dropWhile isPySpace).reverse
      rw [hb] at htp
      have hgl : (l.dropWhile isPySpace).reverse.getLast? = (b :: bs).getLast? :=
        getLast?_of_suffix htp (by simp)
      rw [List.getLast?_reverse] at hgl
      cases hh : l.dropWhile isPySpace with
      | nil =>
        rw [hh] at htp
        simp at htp
      | cons c cs =>
        have hc : isPySpace c = false := dropWhile_head_false isPySpace l c cs hh
        rw [hh] at hgl
        rw [show (c :: cs).head? = some c from rfl] at hgl
        rw [← hgl]
        simpa using hc
    -- head of r fails isPySpace, so the left strip of r is r itself
    have hr1 : ((b :: bs).reverse).dropWhile isPySpace = (b :: bs).reverse := by
      apply dropWhile_eq_self_of_head
      intro c cs h
      have : ((b :: bs).reverse).head? = some c := by rw [h]; rfl
      rw [List.head?_reverse] at this
      cases hgl2 : (b :: bs).getLast? with
      | none => rw [hgl2] at this; cases this
      | some d =>
        rw [hgl2] at this
        injection this with hd
        subst hd
        rw [hgl2] at hlastb
        exact hlastb
    rw [hr1, List.reverse_reverse]
    -- the right strip of r re-traverses b :: bs, already stripped
    rw [show (b :: bs).dropWhile isPySpace = b :: bs from
      dropWhile_eq_self_of_head isPySpace _
        (fun c cs h => by injection h with h1 _; subst h1; exact hheadb)]

lemma pyStrip_idem (s : String) : pyStrip (pyStrip s) = pyStrip s :=
  congrArg String.mk (pyStripList_idem s.data)

/-! ## Non-emptiness of normalized notes -/

lemma joinLines_ne_empty (x : String) (xs : List String) (hx : x ≠ "") :
    joinLines (x :: xs) ≠ "" := by
  cases xs with
  | nil => simpa [joinLines] using hx
  | cons y ys =>
    intro h
    have hl := congrArg String.length h
    rw [show joinLines (x :: y :: ys) = x ++ "\n" ++ joinLines (y :: ys) from rfl,
      String.length_append, String.length_append,
      show String.length "\n" = 1 from rfl, show String.length "" = 0 from rfl] at hl
    omega

lemma normalizeNote_cons_ne (line : String) (ws : List String)
    (hs : pyStrip line = line) (hl : line ≠ "") :
    normalizeNote (line :: ws) ≠ "" := by
  unfold normalizeNote
  rw [List.map_cons, hs, List.filter_cons, if_pos (by simp [hl])]
  exact joinLines_ne_empty _ _ hl

/-! ## Properties of the notes dictionary operations -/

/-- The note list currently stored for a ticket (empty when absent). -/
def notesOf (m : List (String × List String)) (t : String) : List String :=
  (lookupNotes m t).getD []

lemma lookupNotes_mem {m : List (String × List String)} {t : String} {ns : List String}
    (h : lookupNotes m t = some ns) : (t, ns) ∈ m := by
  induction m with
  | nil => cases h
  | cons e rest ih =>
    obtain ⟨k, v⟩ := e
    rw [show lookupNotes ((k, v) :: rest) t =
        (if k = t then some v else lookupNotes rest t) from rfl] at h
    by_cases hk : k = t
    · rw [if_pos hk] at h
      injection h with hv
      subst hk
      subst hv
      exact List.mem_cons_self _ _
    · rw [if_neg hk] at h
      exact List.mem_cons_of_mem _ (ih h)

lemma lookupNotes_append_none {m m2 : List (String × List String)} {t : String}
    (h : lookupNotes m t = none) : lookupNotes (m ++ m2) t = lookupNotes m2 t := by
  induction m with
  | nil => rfl
  | cons e rest ih =>
    obtain ⟨k, v⟩ := e
    rw [show lookupNotes ((k, v) :: rest) t =
        (if k = t then some v else lookupNotes rest t) from rfl] at h
    by_cases hk : k = t
    · rw [if_pos hk] at h
      cases h
    · rw [if_neg hk] at h
      rw [List.cons_append,
        show lookupNotes ((k, v) :: (rest ++ m2)) t =
          (if k = t then some v else lookupNotes (rest ++ m2) t) from rfl,
        if_neg hk]
      exact ih h

lemma lookupNotes_append_some {m m2 : List (String × List String)} {t : String}
    {ns : List String} (h : lookupNotes m t = some ns) :
    lookupNotes (m ++ m2) t = some ns := by
  induction m with
  | nil => cases h
  | cons e rest ih =>
    obtain ⟨k, v⟩ := e
    rw [show lookupNotes ((k, v) :: rest) t =
        (if k = t then some v else lookupNotes rest t) from rfl] at h
    rw [List.cons_append,
      show lookupNotes ((k, v) :: (rest ++ m2)) t =
        (if k = t then some v else lookupNotes (rest ++ m2) t) from rfl]
    by_cases hk : k = t
    · rw [if_pos hk] at h ⊢
      exact h
    · rw [if_neg hk] at h ⊢
      exact ih h

lemma lookupNotes_updateEntry_self {m : List (String × List String)} {t : String}
    {ns v : List String} (h : lookupNotes m t = some ns) :
    lookupNotes (updateEntry m t v) t = some v := by
  induction m with
  | nil => cases h
  | cons e rest ih =>
    obtain ⟨k, w⟩ := e
    rw [show lookupNotes ((k, w) :: rest) t =
        (if k = t then some w else lookupNotes rest t) from rfl] at h
    rw [show updateEntry ((k, w) :: rest) t v =
        (if k = t then (k, v) :: rest else (k, w) :: updateEntry rest t v) from rfl]
    by_cases hk : k = t
    · rw [if_pos hk,
        show lookupNotes ((k, v) :: rest) t =
          (if k = t then some v else lookupNotes rest t) from rfl, if_pos hk]
    · rw [if_neg hk,
        show lookupNotes ((k, w) :: updateEntry rest t v) t =
          (if k = t then some w else lookupNotes (updateEntry rest t v) t) from rfl,
        if_neg hk]
      rw [if_neg hk] at h
      exact ih h

lemma lookupNotes_updateEntry_other {m : List (String × List String)} {t t' : String}
    {v : List String} (h : t ≠ t') :
    lookupNotes (updateEntry m t' v) t = lookupNotes m t := by
  induction m with
  | nil => rfl
  | cons e rest ih =>
    obtain ⟨k, w⟩ := e
    rw [show updateEntry ((k, w) :: rest) t' v =
        (if k = t' then (k, v) :: rest else (k, w) :: updateEntry rest t' v) from rfl]
    by_cases hk : k = t'
    · rw [if_pos hk,
        show lookupNotes ((k, v) :: rest) t =
          (if k = t then some v else lookupNotes rest t) from rfl,
        show lookupNotes ((k, w) :: rest) t =
          (if k = t then some w else lookupNotes rest t) from rfl,
        if_neg (by rw [hk]; exact fun he => h he.symm),
        if_neg (by rw [hk]; exact fun he => h he.symm)]
    · rw [if_neg hk,
        show lookupNotes ((k, w) :: updateEntry rest t' v) t =
          (if k = t then some w else lookupNotes (updateEntry rest t' v) t) from rfl,
        show lookupNotes ((k, w) :: rest) t =
          (if k = t then some w else lookupNotes rest t) from rfl]
      by_cases hkt : k = t
      · rw [if_pos hkt, if_pos hkt]
      · rw [if_neg hkt, if_neg hkt]
        exact ih

lemma updateEntry_mem {m : List (String × List String)} {t : String} {v : List String}
    (p : String × List String) (hp : p ∈ updateEntry m t v) : p ∈ m ∨ p = (t, v) := by
  induction m with
  | nil => cases hp
  | cons e rest ih =>
    obtain ⟨k, w⟩ := e
    rw [show updateEntry ((k, w) :: rest) t v =
        (if k = t then (k, v) :: rest else (k, w) :: updateEntry rest t v) from rfl] at hp
    by_cases hk : k = t
    · rw [if_pos hk] at hp
      rcases List.mem_cons.mp hp with h | h
      · right
        rw [h, hk]
      · exact Or.inl (List.mem_cons_of_mem _ h)
    · rw [if_neg hk] at hp
      rcases List.mem_cons.mp hp with h | h
      · exact Or.inl (h ▸ List.mem_cons_self _ _)
      · rcases ih h with h' | h'
        · exact Or.inl (List.mem_cons_of_mem _ h')
        · exact Or.inr h'

lemma addNote_eq_none {m : List (String × List String)} {t note : String}
    (h1 : lookupNotes m t = none) :
    addNote m t note = (if note = "" then m ++ [(t, [])] else m ++ [(t, [note])]) := by
  unfold addNote
  rw [h1]

lemma addNote_eq_some {m : List (String × List String)} {t note : String}
    {ns : List String} (h1 : lookupNotes m t = some ns) :
    addNote m t note =
      (if note ≠ "" ∧ note ∉ ns then updateEntry m t (ns ++ [note]) else m) := by
  unfold addNote
  rw [h1]

lemma addNote_mem_self (m : List (String × List String)) (t note : String)
    (h : note ≠ "") : note ∈ notesOf (addNote m t note) t := by
  cases h1 : lookupNotes m t with
  | none =>
    rw [addNote_eq_none h1, if_neg h]
    unfold notesOf
    rw [lookupNotes_append_none h1,
      show lookupNotes [(t, [note])] t = (if t = t then some [note] else none) from rfl,
      if_pos rfl]
    exact List.mem_singleton.mpr rfl
  | some ns =>
    by_cases h2 : note ∈ ns
    · rw [addNote_eq_some h1, if_neg (fun hc => hc.2 h2)]
      unfold notesOf
      rw [h1]
      exact h2
    · rw [addNote_eq_some h1, if_pos ⟨h, h2⟩]
      unfold notesOf
      rw [lookupNotes_updateEntry_self h1]
      simp

lemma addNote_mem_mono (m : List (String × List String)) (t t' note note' : String)
    (h : note ∈ notesOf m t) : note ∈ notesOf (addNote m t' note') t := by
  have hsome : ∃ ns, lookupNotes m t = some ns ∧ note ∈ ns := by
    unfold notesOf at h
    cases hl : lookupNotes m t with
    | none => rw [hl] at h; cases h
    | some ns => rw [hl] at h; exact ⟨ns, rfl, h⟩
  obtain ⟨ns, hns, hmem⟩ := hsome
  cases h2 : lookupNotes m t' with
  | none =>
    rw [addNote_eq_none h2]
    by_cases he : note' = ""
    · rw [if_pos he]
      unfold notesOf
      rw [lookupNotes_append_some hns]
      exact hmem
    · rw [if_neg he]
      unfold notesOf
      rw [lookupNotes_append_some hns]
      exact hmem
  | some ns' =>
    rw [addNote_eq_some h2]
    by_cases hc : note' ≠ "" ∧ note' ∉ ns'
    · rw [if_pos hc]
      by_cases ht : t = t'
      · subst ht
        rw [hns] at h2
        injection h2 with hnseq
        subst hnseq
        unfold notesOf
        rw [lookupNotes_updateEntry_self hns]
        exact List.mem_append.mpr (Or.inl hmem)
      · unfold notesOf
        rw [lookupNotes_updateEntry_other ht, hns]
        exact hmem
    · rw [if_neg hc]
      unfold notesOf
      rw [hns]
      exact hmem

lemma foldl_addNote_mono (tickets : List String) (note' : String)
    (acc : List (String × List String)) (t note : String)
    (h : note ∈ notesOf acc t) :
    note ∈ notesOf (tickets.foldl (fun m tk => addNote m tk note') acc) t := by
  induction tickets generalizing acc with
  | nil => exact h
  | cons t0 rest ih => exact ih _ (addNote_mem_mono _ _ _ _ _ h)

lemma foldl_addNote_mem (tickets : List String) (note : String)
    (acc : List (String × List String)) (t : String)
    (hn : note ≠ "") (ht : t ∈ tickets) :
    note ∈ notesOf (tickets.foldl (fun m tk => addNote m tk note) acc) t := by
  induction tickets generalizing acc with
  | nil => cases ht
  | cons t0 rest ih =>
    rw [List.foldl_cons]
    rcases List.mem_cons.mp ht with rfl | hmem
    · exact foldl_addNote_mono rest note _ t note (addNote_mem_self _ _ _ hn)
    · exact ih _ hmem

/-- C7: lines 129–132 add the one combined note of the window to every
ticket ID found on the window's first line (all get the same note); on the
two-ticket line of Scenario 6 both PROJ-1 and PROJ-2 receive the identical
combined note. -/
theorem claim_C7 :
    (∀ (acc : List (String × List String)) (tickets : List String) (note t : String),
      note ≠ "" → t ∈ tickets →
      note ∈ notesOf (tickets.foldl (fun m tk => addNote m tk note) acc) t) ∧
    extract_jira_ticket_notes_regex "PROJ-1 and PROJ-2 are blocked\n- waiting on infra" =
      [("PROJ-1", ["PROJ-1 and PROJ-2 are blocked\n- waiting on infra"]),
       ("PROJ-2", ["PROJ-1 and PROJ-2 are blocked\n- waiting on infra"])] :=
  ⟨fun acc tickets note t hn ht => foldl_addNote_mem tickets note acc t hn ht, rfl⟩

theorem claim_C7_witness :
    "the note" ∈
      notesOf (["PROJ-1", "PROJ-2"].foldl (fun m tk => addNote m tk "the note") []) "PROJ-2" :=
  claim_C7.1 [] ["PROJ-1", "PROJ-2"] "the note" "PROJ-2" (by decide) (by decide)

/-! ## C4: the regex extractor's map invariant -/

/-- The data-model invariant: no entry holds an empty note sequence, and no
note sequence repeats a note string. -/
def mapInv (m : List (String × List String)) : Prop :=
  ∀ p ∈ m, p.2 ≠ [] ∧ p.2.Nodup

lemma addNote_inv {m : List (String × List String)} (hm : mapInv m)
    {t note : String} (hn : note ≠ "") : mapInv (addNote m t note) := by
  cases h1 : lookupNotes m t with
  | none =>
    rw [addNote_eq_none h1, if_neg hn]
    intro p hp
    rcases List.mem_append.mp hp with h | h
    · exact hm p h
    · rw [List.mem_singleton.mp h]
      exact ⟨by simp, by simp⟩
  | some ns =>
    rw [addNote_eq_some h1]
    by_cases hc : note ≠ "" ∧ note ∉ ns
    · rw [if_pos hc]
      intro p hp
      rcases updateEntry_mem p hp with h | h
      · exact hm p h
      · rw [h]
        refine ⟨by simp, ?_⟩
        have hns : (t, ns) ∈ m := lookupNotes_mem h1
        refine List.nodup_append.mpr ⟨(hm _ hns).2, List.nodup_singleton _, ?_⟩
        intro a ha hb
        rw [List.mem_singleton] at hb
        subst hb
        exact hc.2 ha
    · rw [if_neg hc]
      exact hm

lemma foldl_addNote_inv (tickets : List String) {note : String} (hn : note ≠ "") :
    ∀ acc, mapInv acc → mapInv (tickets.foldl (fun m tk => addNote m tk note) acc) := by
  induction tickets with
  | nil => exact fun acc h => h
  | cons t0 rest ih =>
    intro acc h
    rw [List.foldl_cons]
    exact ih _ (addNote_inv h hn)

lemma extractLoop_inv (lines : List String) :
    ∀ acc, mapInv acc → mapInv (extractLoop acc lines) := by
  induction lines with
  | nil => exact fun acc h => h
  | cons raw rest ih =>
    intro acc h
    by_cases h1 : pyStrip raw = ""
    · rw [show extractLoop acc (raw :: rest) = extractLoop acc rest from by
        simp only [extractLoop, if_pos h1]]
      exact ih acc h
    · by_cases h2 : (findTickets (pyStrip raw)).isEmpty = true
      · rw [show extractLoop acc (raw :: rest) = extractLoop acc rest from by
          simp only [extractLoop, if_neg h1, if_pos h2]]
        exact ih acc h
      · rw [show extractLoop acc (raw :: rest) =
            extractLoop ((findTickets (pyStrip raw)).foldl
              (fun m tk => addNote m tk
                (normalizeNote (pyStrip raw :: collectWindow rest))) acc) rest from by
          simp only [extractLoop, if_neg h1, if_neg h2]]
        refine ih _ (foldl_addNote_inv _ ?_ acc h)
        exact normalizeNote_cons_ne (pyStrip raw) _ (pyStrip_idem raw) h1

/-- C4 fails on the code for the AI path: the validator of
`extract_jira_ticket_notes_ai` keeps list values verbatim, so a model
response with a duplicated note string survives with the duplicate, and a
model response with an empty list survives as an empty entry. -/
theorem claim_C4_cex :
    extract_jira_ticket_notes_ai true
        (.parsed [(JVal.str "IWMP-991", JVal.list [JVal.str "a", JVal.str "a"])]) =
      [("IWMP-991", [JVal.str "a", JVal.str "a"])] ∧
    ¬ ([JVal.str "a", JVal.str "a"] : List JVal).Nodup ∧
    extract_jira_ticket_notes_ai true (.parsed [(JVal.str "IWMP-991", JVal.list [])]) =
      [("IWMP-991", [])] := by
  refine ⟨rfl, ?_, rfl⟩
  intro h
  rw [List.nodup_cons] at h
  exact h.1 (List.mem_singleton.mpr rfl)

/-- C4 amended: the invariant — no duplicate note within a ticket's
sequence, no ticket with an empty sequence — holds for every map produced by
the regex Note-Window Extractor; the AI path does not re-establish it. -/
theorem claim_C4 :
    ∀ (transcript : String) (p : String × List String),
      p ∈ extract_jira_ticket_notes_regex transcript → p.2 ≠ [] ∧ p.2.Nodup :=
  fun transcript p hp =>
    extractLoop_inv (splitlines transcript) []
      (fun q hq => absurd hq (List.not_mem_nil q)) p hp

theorem claim_C4_witness :
    (("PROJ-1", ["PROJ-1 a"]) : String × List String).2 ≠ [] ∧
    (("PROJ-1", ["PROJ-1 a"]) : String × List String).2.Nodup :=
  claim_C4 "PROJ-1 a" ("PROJ-1", ["PROJ-1 a"]) (by decide)

/-! ## C6: a ticket line with no continuation lines -/

/-- C6 fails on the code as universally stated: in the transcript
`"PROJ-1 a\n\nPROJ-1 b"` the line `"PROJ-1 a"` contains exactly one ticket
ID and is followed by a blank line (no continuation lines), yet the
extractor's map holds two notes for PROJ-1, not exactly one, because the
same ticket is mentioned again later. -/
theorem claim_C6_cex :
    findTickets (pyStrip "PROJ-1 a") = ["PROJ-1"] ∧
    extract_jira_ticket_notes_regex "PROJ-1 a\n\nPROJ-1 b" =
      [("PROJ-1", ["PROJ-1 a", "PROJ-1 b"])] ∧
    (["PROJ-1 a", "PROJ-1 b"] : List String).length ≠ 1 :=
  ⟨rfl, rfl, by decide⟩

lemma extractLoop_no_tickets (lines : List String)
    (h : ∀ p ∈ lines, findTickets (pyStrip p) = []) :
    ∀ acc, extractLoop acc lines = acc := by
  induction lines with
  | nil => exact fun acc => rfl
  | cons raw rest ih =>
    intro acc
    have hr := h raw (List.mem_cons_self _ _)
    have hrest : ∀ p ∈ rest, findTickets (pyStrip p) = [] :=
      fun p hp => h p (List.mem_cons_of_mem _ hp)
    by_cases h1 : pyStrip raw = ""
    · rw [show extractLoop acc (raw :: rest) = extractLoop acc rest from by
        simp only [extractLoop, if_pos h1]]
      exact ih hrest acc
    · rw [show extractLoop acc (raw :: rest) = extractLoop acc rest from by
        simp only [extractLoop, if_neg h1]
        rw [hr]
        simp]
      exact ih hrest acc

/-- C6 amended: when the transcript has a single ticket-bearing line, that
line (already stripped) carries exactly one ticket ID, and its following
line opens no continuation window, the extractor returns exactly that one
ticket with the one note equal to the line itself.  (In general the line's
trimmed text is merely *among* the ticket's notes: see `claim_C6_cex` for a
transcript where a later mention adds a second note.) -/
theorem claim_C6 :
    (∀ transcript, extract_jira_ticket_notes_regex transcript =
      extractLoop [] (splitlines transcript)) ∧
    (∀ (pre post : List String) (l t : String),
      pyStrip l = l → findTickets l = [t] →
      (∀ p ∈ pre, findTickets (pyStrip p) = []) →
      (∀ p ∈ post, findTickets (pyStrip p) = []) →
      collectWindow post = [] →
      extractLoop [] (pre ++ l :: post) = [(t, [l])]) := by
  refine ⟨fun transcript => rfl, ?_⟩
  intro pre post l t hs ht hpre hpost hw
  induction pre with
  | nil =>
    rw [List.nil_append]
    have hl0 : l ≠ "" := by
      intro he
      rw [he] at ht
      have hnil : ([] : List String) = [t] := ht
      cases hnil
    have h1 : ¬ (pyStrip l = "") := by rw [hs]; exact hl0
    have h2 : ¬ ((findTickets (pyStrip l)).isEmpty = true) := by
      rw [hs, ht]
      simp
    rw [show extractLoop [] (l :: post) =
        extractLoop ((findTickets (pyStrip l)).foldl
          (fun m tk => addNote m tk (normalizeNote (pyStrip l :: collectWindow post))) [])
          post from by
      simp only [extractLoop, if_neg h1, if_neg h2]]
    rw [hs, ht, hw]
    have hnote : normalizeNote [l] = l := by
      unfold normalizeNote
      simp only [List.map_cons, List.map_nil]
      rw [hs, List.filter_cons, if_pos (by simp [hl0])]
      rfl
    rw [hnote, List.foldl_cons, List.foldl_nil,
      addNote_eq_none (show lookupNotes [] t = none from rfl), if_neg hl0,
      List.nil_append]
    exact extractLoop_no_tickets post hpost _
  | cons p pre' ih =>
    have hp := hpre p (List.mem_cons_self _ _)
    have hpre' : ∀ q ∈ pre', findTickets (pyStrip q) = [] :=
      fun q hq => hpre q (List.mem_cons_of_mem _ hq)
    rw [List.cons_append]
    by_cases h1 : pyStrip p = ""
    · rw [show extractLoop [] (p :: (pre' ++ l :: post)) =
          extractLoop [] (pre' ++ l :: post) from by
        simp only [extractLoop, if_pos h1]]
      exact ih hpre'
    · rw [show extractLoop [] (p :: (pre' ++ l :: post)) =
          extractLoop [] (pre' ++ l :: post) from by
        simp only [extractLoop, if_neg h1]
        rw [hp]
        simp]
      exact ih hpre'

theorem claim_C6_witness :
    extractLoop [] (["hello"] ++ "PROJ-7 done" :: ["world"]) =
      [("PROJ-7", ["PROJ-7 done"])] :=
  claim_C6.2 ["hello"] ["world"] "PROJ-7 done" "PROJ-7" (by decide) (by decide)
    (by decide) (by decide) (by decide)

end Meet2Jira
